import Mathlib

/-!
Verification of the ResearchOracle paper-proxy service (src/main.py) against
its specification.  The Python code is shallowly embedded: strings are
`List Char`, the BeautifulSoup XML document is an inductive tree, every
outbound HTTP / Entrez call is an explicit environment field of type
`Except`, and raised exceptions become `Except.error` values.
-/

namespace ResearchOracle

/-- Whitespace as recognized by Python's `str.strip()` and the regex class
`\s` (the six ASCII whitespace characters; both sites use the same class). -/
def isWS (c : Char) : Bool :=
  c = ' ' || c = '\t' || c = '\n' || c = '\r' || c = '\x0b' || c = '\x0c'

/-- Right half of Python `str.strip()`: remove trailing whitespace. -/
def rstrip : List Char → List Char
  | [] => []
  | c :: rest =>
    match rstrip rest with
    | [] => if isWS c then [] else [c]
    | xs => c :: xs

/-- Python `txt.strip()`: remove leading and trailing whitespace. -/
def pstrip (l : List Char) : List Char := rstrip (l.dropWhile isWS)

/-- Worker for `re.sub(r"\s+", " ", ·)`: replace every maximal run of
whitespace by a single space.  `prev` records whether the previous input
character was part of a whitespace run already emitted as one space. -/
def collapseAux : Bool → List Char → List Char
  | _, [] => []
  | prev, c :: rest =>
    if isWS c then
      if prev then collapseAux true rest else ' ' :: collapseAux true rest
    else c :: collapseAux false rest

/-- `re.sub(r"\s+", " ", l)`. -/
def collapseWS (l : List Char) : List Char := collapseAux false l

/-- src/main.py `clean`: `re.sub(r"\s+", " ", txt.strip())`. -/
def clean (l : List Char) : List Char := collapseWS (pstrip l)

/-- No two adjacent characters are both whitespace. -/
def noAdjWS : List Char → Bool
  | [] => true
  | [_] => true
  | a :: b :: rest => !(isWS a && isWS b) && noAdjWS (b :: rest)

/-- Neither the first nor the last character is whitespace. -/
def noEdgeWS (l : List Char) : Bool :=
  (match l.head? with
   | none => true
   | some c => !isWS c) &&
  (match l.getLast? with
   | none => true
   | some c => !isWS c)

/-- Every whitespace character is a plain space. -/
def wsCanonical (l : List Char) : Bool := l.all (fun c => !isWS c || c = ' ')

/-!
Embedding of the adapters.  A BeautifulSoup document is a list of XML
nodes; every outbound call (httpx GET, Entrez.elink, Entrez.esummary) is a
field of an environment record whose value is an `Except String`: `.error`
models a raised exception (network failure, timeout, malformed response
making library code throw), `.ok` a response that was returned.  FastAPI's
HTTPException and uncaught exceptions become the `Err` type.  bs4 detail:
`Tag.__bool__` always returns `True` ("A tag is non-None even if it has no
contents"), so a found tag passes every `if tag:` test; only `None` and
empty strings are falsy at those sites.
-/


mutual

/-- An XML node as parsed by BeautifulSoup's case-sensitive "xml" parser:
an element with a tag name and children, or a text node.  The children are
their own inductive of node lists so that traversals are structurally
recursive. -/
inductive Xml where
  | elem : String → XmlForest → Xml
  | text : List Char → Xml

/-- A list of XML nodes (the children of an element, or a whole document). -/
inductive XmlForest where
  | nil : XmlForest
  | cons : Xml → XmlForest → XmlForest

end

/-- Build a forest from a list of nodes. -/
def XmlForest.ofList : List Xml → XmlForest
  | [] => .nil
  | x :: xs => .cons x (ofList xs)

/-- An element node with its children given as a list. -/
def xelem (n : String) (cs : List Xml) : Xml := Xml.elem n (XmlForest.ofList cs)

/-- bs4 `.text` of a forest: concatenation of all descendant strings in
document order. -/
def allTextL : XmlForest → List Char
  | .nil => []
  | .cons (Xml.text s) rest => s ++ allTextL rest
  | .cons (Xml.elem _ cs) rest => allTextL cs ++ allTextL rest

/-- bs4 `tag.text`. -/
def Xml.allText (x : Xml) : List Char := allTextL (XmlForest.cons x XmlForest.nil)

/-- The children of a node. -/
def Xml.children : Xml → XmlForest
  | .elem _ cs => cs
  | .text _ => XmlForest.nil

/-- bs4 `soup.find([names])`: the first element in document order
(pre-order traversal) whose tag name is any of `names` — there is no
priority among the names. -/
def findL (names : List String) : XmlForest → Option Xml
  | .nil => none
  | .cons (Xml.text _) rest => findL names rest
  | .cons (Xml.elem n cs) rest =>
    if n ∈ names then some (Xml.elem n cs)
    else
      match findL names cs with
      | some x => some x
      | none => findL names rest

/-- bs4 `find_all(name)`: every element with the given tag name, in
document order, nested matches included. -/
def findAllL (name : String) : XmlForest → List Xml
  | .nil => []
  | .cons (Xml.text _) rest => findAllL name rest
  | .cons (Xml.elem n cs) rest =>
    (if n = name then [Xml.elem n cs] else []) ++ findAllL name cs ++
      findAllL name rest

/-- Python `sep.join(parts)`. -/
def joinSep (sep : List Char) : List (List Char) → List Char
  | [] => []
  | [x] => x
  | x :: xs => x ++ sep ++ joinSep sep xs

/-- The pydantic response model of src/main.py. -/
structure Paper where
  title : List Char
  authors : List (List Char)
  published : List Char
  abstract : List Char
  full_text : List Char
  url : List Char

/-- What a route handler can raise: `httpError` is fastapi's
HTTPException (status code, detail); `exn` is any other uncaught Python
exception, surfaced by the framework as a 500-class failure. -/
inductive Err where
  | httpError : Nat → String → Err
  | exn : String → Err

/-- One entry of `record[0]["LinkSetDb"]` in an Entrez elink result. -/
structure LinkDb where
  link : List (List Char)

/-- One entry of the list returned by `Entrez.read(Entrez.elink(...))`. -/
structure LinkSet where
  linkSetDb : List LinkDb

/-- An httpx response: a status code and the body, given here already
parsed by BeautifulSoup (which parses any text without failing; an error
page simply yields a tree with none of the expected tags). -/
structure HttpResp where
  status : Nat
  xml : XmlForest

/-- The outbound calls `get_pubmed_full` may make. -/
structure PubmedEnv where
  efetch : Except String HttpResp
  esummary : Except String (List (Option (List Char)))
  elink : Except String (List LinkSet)
  pmcFetch : Except String HttpResp

/-- src/main.py `pmid_to_pmcid`: `record[0]["LinkSetDb"]` raises
IndexError on an empty record list; `ldb[0]["Link"][0]["Id"] if ldb else
None` returns None for an empty LinkSetDb but raises on an empty Link
list. -/
def pmid_to_pmcid (elinkResult : Except String (List LinkSet)) :
    Except String (Option (List Char)) :=
  match elinkResult with
  | .error e => .error e
  | .ok recs =>
    match recs with
    | [] => .error "IndexError"
    | r0 :: _ =>
      match r0.linkSetDb with
      | [] => .ok none
      | db0 :: _ =>
        match db0.link with
        | [] => .error "IndexError"
        | id0 :: _ => .ok (some id0)

/-- src/main.py `pubmed_meta_xml`: performs the GET and parses
`resp.text`; the response status is never inspected, so a non-2xx body is
parsed exactly like a success body. -/
def pubmed_meta_xml (efetchResult : Except String HttpResp) :
    Except String XmlForest :=
  match efetchResult with
  | .error e => .error e
  | .ok resp => .ok resp.xml

/-- The tag-name list passed to `soup.find` for the title. -/
def titleNames : List String := ["ArticleTitle", "article-title", "BookTitle", "Title"]

/-- `es[0].get("Title") if es else None`. -/
def esFirstTitle : List (Option (List Char)) → Option (List Char)
  | [] => none
  | r :: _ => r

/-- The title step of `get_pubmed_full`: `soup.find(titleNames)`, falling
back to the esummary Title (where an empty string is falsy and triggers
the 404), else HTTPException(404). -/
def pubmed_title (env : PubmedEnv) (soup : XmlForest) : Except Err (List Char) :=
  match findL titleNames soup with
  | some t => .ok (clean (Xml.allText t))
  | none =>
    match env.esummary with
    | .error e => .error (.exn e)
    | .ok es =>
      match esFirstTitle es with
      | none => .error (.httpError 404 "PMID not found")
      | some s =>
        if s.isEmpty then .error (.httpError 404 "PMID not found")
        else .ok (clean s)

/-- Python `a or b` on two `find` results (a found tag is always truthy). -/
def pyOrTag (a b : Option Xml) : Option Xml :=
  match a with
  | some t => some t
  | none => b

/-- `pub.Year.text if pub and pub.Year else ""`: the text of the first
descendant with the given name, or empty. -/
def subElemText (pub : Option Xml) (name : String) : List Char :=
  match pub with
  | none => []
  | some t =>
    match findL [name] (Xml.children t) with
    | none => []
    | some y => Xml.allText y

/-- The abstract placeholder literal. -/
def placeholder : List Char := "(No abstract available.)".toList

/-- `authors = [clean(a.text) for a in soup.find_all("LastName")]`, falling
back to CollectiveName when the list is empty. -/
def pubmedAuthors (soup : XmlForest) : List (List Char) :=
  let lastNames := (findAllL "LastName" soup).map (fun a => clean (Xml.allText a))
  if lastNames.isEmpty then
    (findAllL "CollectiveName" soup).map (fun a => clean (Xml.allText a))
  else lastNames

/-- `clean(" ".join(p.text for p in soup.find_all("AbstractText"))) or
"(No abstract available.)"`. -/
def pubmedAbstract (soup : XmlForest) : List Char :=
  let abs0 := clean (joinSep [' '] ((findAllL "AbstractText" soup).map Xml.allText))
  if abs0.isEmpty then placeholder else abs0

/-- `pub = soup.find("PubDate") or soup.find("BookDate")`. -/
def pubmedDateTag (soup : XmlForest) : Option Xml :=
  pyOrTag (findL ["PubDate"] soup) (findL ["BookDate"] soup)

/-- `published = " ".join([year, month, day]).strip()`. -/
def pubmedPublished (soup : XmlForest) : List Char :=
  pstrip (joinSep [' ']
    [subElemText (pubmedDateTag soup) "Year",
     subElemText (pubmedDateTag soup) "Month",
     subElemText (pubmedDateTag soup) "Day"])

/-- The primary-record part of `get_pubmed_full`: efetch, title (with
esummary fallback), authors, abstract, published.  Returns
(title, authors, published, abstract). -/
def pubmed_primary (env : PubmedEnv) :
    Except Err (List Char × List (List Char) × List Char × List Char) :=
  match pubmed_meta_xml env.efetch with
  | .error e => .error (.exn e)
  | .ok soup =>
    match pubmed_title env soup with
    | .error e => .error e
    | .ok title =>
      .ok (title, pubmedAuthors soup, pubmedPublished soup, pubmedAbstract soup)

/-- The secondary full-text part of `get_pubmed_full`: elink to a PMCID
(empty id string is falsy), PMC efetch, and the paragraph join
`"\n\n".join(clean(p.text) for p in body.find_all("p"))`.  No step is
wrapped in a try/except. -/
def pubmed_fulltext (env : PubmedEnv) : Except Err (List Char) :=
  match pmid_to_pmcid env.elink with
  | .error e => .error (.exn e)
  | .ok pmcid =>
    match pmcid with
    | none => .ok []
    | some id0 =>
      if id0.isEmpty then .ok []
      else
        match env.pmcFetch with
        | .error e => .error (.exn e)
        | .ok resp =>
          match findL ["body"] resp.xml with
          | none => .ok []
          | some body =>
            .ok (joinSep ['\n', '\n']
              ((findAllL "p" (Xml.children body)).map (fun p => clean (Xml.allText p))))

/-- The deterministic PubMed URL. -/
def pubmedUrl (pmid : List Char) : List Char :=
  "https://pubmed.ncbi.nlm.nih.gov/".toList ++ pmid ++ "/".toList

/-- src/main.py `get_pubmed_full`, composed in the source's effect order:
primary metadata first, then the secondary full-text fetch, then the
Paper record. -/
def get_pubmed_full (env : PubmedEnv) (pmid : List Char) : Except Err Paper :=
  match pubmed_primary env with
  | .error e => .error e
  | .ok (title, authors, published, abstract) =>
    match pubmed_fulltext env with
    | .error e => .error e
    | .ok fullText =>
      .ok { title := title, authors := authors, published := published,
            abstract := abstract, full_text := fullText, url := pubmedUrl pmid }

/-- One entry of the Atom feed as feedparser exposes it. -/
structure AtomEntry where
  title : List Char
  authors : List (List Char)
  published : List Char
  summary : List Char

/-- The parsed arXiv query response: status code and `feed.entries`. -/
structure FeedResp where
  status : Nat
  entries : List AtomEntry

/-- The PDF download: status code and the text pdfminer would extract
from the body. -/
structure PdfResp where
  status : Nat
  extracted : List Char

/-- The outbound calls of the arXiv adapter. -/
structure ArxivEnv where
  query : Except String FeedResp
  pdf : Except String PdfResp

/-- The dict returned by `get_arxiv_meta`. -/
structure ArxivMeta where
  title : List Char
  authors : List (List Char)
  published : List Char
  abstract : List Char

/-- src/main.py `get_arxiv_meta`: the response status is never inspected;
zero entries raise HTTPException(404); title and summary are cleaned but
author names and the published timestamp are passed through unmodified. -/
def get_arxiv_meta (env : ArxivEnv) : Except Err ArxivMeta :=
  match env.query with
  | .error e => .error (.exn e)
  | .ok resp =>
    match resp.entries with
    | [] => .error (.httpError 404 "arXiv ID not found")
    | e :: _ =>
      .ok { title := clean e.title, authors := e.authors,
            published := e.published, abstract := clean e.summary }

/-- src/main.py `arxiv_pdf_text`: empty when the ARXIV_PDF flag is off or
the download status is not 200; otherwise `clean(text)[:100000]`. -/
def arxiv_pdf_text (arxivPdfFlag : Bool) (env : ArxivEnv) : Except Err (List Char) :=
  if !arxivPdfFlag then .ok []
  else
    match env.pdf with
    | .error e => .error (.exn e)
    | .ok resp =>
      if resp.status ≠ 200 then .ok []
      else .ok ((clean resp.extracted).take 100000)

/-- The deterministic arXiv abs URL. -/
def arxivUrl (arxivId : List Char) : List Char :=
  "https://arxiv.org/abs/".toList ++ arxivId

/-- src/main.py `get_arxiv_full`: metadata, then PDF text, then the Paper
record. -/
def get_arxiv_full (arxivPdfFlag : Bool) (env : ArxivEnv) (arxivId : List Char) :
    Except Err Paper :=
  match get_arxiv_meta env with
  | .error e => .error e
  | .ok meta =>
    match arxiv_pdf_text arxivPdfFlag env with
    | .error e => .error e
    | .ok fullText =>
      .ok { title := meta.title, authors := meta.authors,
            published := meta.published, abstract := meta.abstract,
            full_text := fullText, url := arxivUrl arxivId }

/-- The hard-coded fallback passed to `os.getenv("NCBI_KEY", ...)` on
line 22 of src/main.py. -/
def defaultApiKey : List Char := "d0a28a2ac77f0b03135b097bd0dcab612108".toList

/-- `Entrez.api_key = os.getenv("NCBI_KEY", defaultApiKey)`: the value of
the NCBI_KEY environment variable when set, else the hard-coded default. -/
def entrezApiKey (ncbiKeyEnv : Option (List Char)) : List Char :=
  match ncbiKeyEnv with
  | some k => k
  | none => defaultApiKey

/-- The `paper_pubmed` route handler's pacing: `if not Entrez.api_key:
await asyncio.sleep(0.4)` — the delay in milliseconds performed before
the upstream request. -/
def paper_pubmed_delay (ncbiKeyEnv : Option (List Char)) : Nat :=
  if (entrezApiKey ncbiKeyEnv).isEmpty then 400 else 0


/-!
Concrete inputs used by the per-claim counterexamples and witnesses.
-/

/-- A minimal PubMed document with a resolvable title. -/
def soupC2 : XmlForest :=
  XmlForest.ofList [xelem "ArticleTitle" [Xml.text "A Study".toList]]

/-- Environment whose elink call succeeds with no PMC link. -/
def envC2ok : PubmedEnv :=
  { efetch := Except.ok ⟨200, soupC2⟩, esummary := Except.ok [],
    elink := Except.ok [⟨[]⟩], pmcFetch := Except.ok ⟨200, XmlForest.nil⟩ }

/-- The same environment except that the elink call raises. -/
def envC2err : PubmedEnv :=
  { efetch := Except.ok ⟨200, soupC2⟩, esummary := Except.ok [],
    elink := Except.error "ConnectionError", pmcFetch := Except.ok ⟨200, XmlForest.nil⟩ }

/-- An arXiv environment whose query comes back 500 with an empty feed. -/
def envC3 : ArxivEnv := { query := Except.ok ⟨500, []⟩, pdf := Except.ok ⟨200, []⟩ }

/-- A PubMed environment whose efetch raises. -/
def envC3pw : PubmedEnv :=
  { efetch := Except.error "Timeout", esummary := Except.ok [],
    elink := Except.ok [⟨[]⟩], pmcFetch := Except.ok ⟨200, XmlForest.nil⟩ }

/-- An arXiv environment whose query raises. -/
def envC3aw : ArxivEnv :=
  { query := Except.error "Timeout", pdf := Except.ok ⟨200, []⟩ }

/-- A document with a Title element before an ArticleTitle element. -/
def soupC4 : XmlForest :=
  XmlForest.ofList
    [xelem "Title" [Xml.text "Wrong".toList],
     xelem "ArticleTitle" [Xml.text "Right".toList]]

def envC4 : PubmedEnv :=
  { efetch := Except.ok ⟨200, soupC4⟩, esummary := Except.ok [],
    elink := Except.ok [⟨[]⟩], pmcFetch := Except.ok ⟨200, XmlForest.nil⟩ }

/-- A document whose only title-like element is a BookTitle. -/
def soupC4w : XmlForest :=
  XmlForest.ofList [xelem "BookTitle" [Xml.text "B".toList]]

def envC4w : PubmedEnv :=
  { efetch := Except.ok ⟨200, soupC4w⟩, esummary := Except.ok [],
    elink := Except.ok [⟨[]⟩], pmcFetch := Except.ok ⟨200, XmlForest.nil⟩ }

/-- An empty document together with an empty esummary: no title anywhere. -/
def envC4x : PubmedEnv :=
  { efetch := Except.ok ⟨200, XmlForest.nil⟩, esummary := Except.ok [],
    elink := Except.ok [⟨[]⟩], pmcFetch := Except.ok ⟨200, XmlForest.nil⟩ }

/-- A document with a title and no AbstractText element. -/
def soupC5 : XmlForest :=
  XmlForest.ofList [xelem "ArticleTitle" [Xml.text "A Study".toList]]

def envC5 : PubmedEnv :=
  { efetch := Except.ok ⟨200, soupC5⟩, esummary := Except.ok [],
    elink := Except.ok [⟨[]⟩], pmcFetch := Except.ok ⟨200, XmlForest.nil⟩ }

def recC5 : Paper :=
  { title := "A Study".toList, authors := [], published := [],
    abstract := placeholder, full_text := [], url := pubmedUrl "11".toList }

/-- A document with one AbstractText element whose text is empty. -/
def soupC6 : XmlForest :=
  XmlForest.ofList
    [xelem "ArticleTitle" [Xml.text "T".toList], xelem "AbstractText" []]

def envC6 : PubmedEnv :=
  { efetch := Except.ok ⟨200, soupC6⟩, esummary := Except.ok [],
    elink := Except.ok [⟨[]⟩], pmcFetch := Except.ok ⟨200, XmlForest.nil⟩ }

/-- A document with a non-blank AbstractText element. -/
def soupC6w : XmlForest :=
  XmlForest.ofList
    [xelem "ArticleTitle" [Xml.text "T".toList],
     xelem "AbstractText" [Xml.text "Good  stuff".toList]]

def envC6w : PubmedEnv :=
  { efetch := Except.ok ⟨200, soupC6w⟩, esummary := Except.ok [],
    elink := Except.ok [⟨[]⟩], pmcFetch := Except.ok ⟨200, XmlForest.nil⟩ }

def recC6w : Paper :=
  { title := "T".toList, authors := [], published := [],
    abstract := "Good stuff".toList, full_text := [], url := pubmedUrl "60".toList }

/-- A PubDate with Year and Day but no Month. -/
def soupC7 : XmlForest :=
  XmlForest.ofList
    [xelem "ArticleTitle" [Xml.text "T".toList],
     xelem "PubDate"
       [xelem "Year" [Xml.text "2021".toList],
        xelem "Day" [Xml.text "5".toList]]]

def envC7 : PubmedEnv :=
  { efetch := Except.ok ⟨200, soupC7⟩, esummary := Except.ok [],
    elink := Except.ok [⟨[]⟩], pmcFetch := Except.ok ⟨200, XmlForest.nil⟩ }

/-- A PubDate with only a Year. -/
def soupC7w : XmlForest :=
  XmlForest.ofList
    [xelem "ArticleTitle" [Xml.text "T".toList],
     xelem "PubDate" [xelem "Year" [Xml.text "2021".toList]]]

def envC7w : PubmedEnv :=
  { efetch := Except.ok ⟨200, soupC7w⟩, esummary := Except.ok [],
    elink := Except.ok [⟨[]⟩], pmcFetch := Except.ok ⟨200, XmlForest.nil⟩ }

def recC7w : Paper :=
  { title := "T".toList, authors := [], published := "2021".toList,
    abstract := placeholder, full_text := [], url := pubmedUrl "70".toList }

/-- A 100001-character extracted PDF text consisting solely of spaces. -/
def envC8 : ArxivEnv :=
  { query := Except.ok ⟨200, []⟩,
    pdf := Except.ok ⟨200, List.replicate 100001 ' '⟩ }

/-- A 100000-character extracted PDF text with no whitespace. -/
def envC8w : ArxivEnv :=
  { query := Except.ok ⟨200, []⟩,
    pdf := Except.ok ⟨200, List.replicate 100000 'a'⟩ }

/-- An arXiv feed entry whose author name contains two adjacent spaces. -/
def entC9 : AtomEntry :=
  { title := "T".toList, authors := ["A  B".toList],
    published := "2020-01-01T00:00:00Z".toList, summary := "S".toList }

def envC9 : ArxivEnv :=
  { query := Except.ok ⟨200, [entC9]⟩, pdf := Except.ok ⟨200, []⟩ }

/-- A PubMed document with messy whitespace in title, author and abstract. -/
def soupC9pw : XmlForest :=
  XmlForest.ofList
    [xelem "ArticleTitle" [Xml.text "A  Study\n".toList],
     xelem "LastName" [Xml.text " Smith ".toList],
     xelem "AbstractText" [Xml.text "B  g".toList]]

def envC9pw : PubmedEnv :=
  { efetch := Except.ok ⟨200, soupC9pw⟩, esummary := Except.ok [],
    elink := Except.ok [⟨[]⟩], pmcFetch := Except.ok ⟨200, XmlForest.nil⟩ }

def recC9pw : Paper :=
  { title := "A Study".toList, authors := ["Smith".toList], published := [],
    abstract := "B g".toList, full_text := [], url := pubmedUrl "9".toList }

/-- A well-formed arXiv entry. -/
def entC9aw : AtomEntry :=
  { title := " X ".toList, authors := ["Q".toList],
    published := "P".toList, summary := "S".toList }

def envC9aw : ArxivEnv :=
  { query := Except.ok ⟨200, [entC9aw]⟩, pdf := Except.ok ⟨200, []⟩ }

def recC9aw : Paper :=
  { title := "X".toList, authors := ["Q".toList], published := "P".toList,
    abstract := "S".toList, full_text := [], url := arxivUrl "9a".toList }
theorem head_collapseAux_true (l : List Char) :
    ∀ c, (collapseAux true l).head? = some c → isWS c = false := by
  induction l with
  | nil => intro c h; simp [collapseAux] at h
  | cons a rest ih =>
    intro c h
    cases hws : isWS a with
    | true =>
      simp [collapseAux, hws] at h
      exact ih c h
    | false =>
      simp [collapseAux, hws] at h
      exact h ▸ hws

theorem noAdjWS_cons (a : Char) (xs : List Char)
    (h1 : ∀ c, xs.head? = some c → (isWS a && isWS c) = false)
    (h2 : noAdjWS xs = true) : noAdjWS (a :: xs) = true := by
  cases xs with
  | nil => rfl
  | cons b t =>
    have hb := h1 b rfl
    simp [noAdjWS, hb, h2]

theorem noAdjWS_tail {a : Char} {rest : List Char}
    (h : noAdjWS (a :: rest) = true) : noAdjWS rest = true := by
  cases rest with
  | nil => rfl
  | cons b t =>
    rw [noAdjWS] at h
    exact (Bool.and_eq_true_iff.mp h).2

theorem noAdjWS_head {a c : Char} {rest : List Char}
    (h : noAdjWS (a :: rest) = true) (hc : rest.head? = some c) :
    (isWS a && isWS c) = false := by
  cases rest with
  | nil => simp at hc
  | cons b t =>
    have hbc : b = c := by simpa using hc
    subst hbc
    rw [noAdjWS] at h
    have h1 := (Bool.and_eq_true_iff.mp h).1
    cases hab : (isWS a && isWS b) with
    | false => rfl
    | true => rw [hab] at h1; exact absurd h1 (by simp)

theorem noAdjWS_collapseAux (l : List Char) :
    ∀ b : Bool, noAdjWS (collapseAux b l) = true := by
  induction l with
  | nil => intro b; rfl
  | cons a rest ih =>
    intro b
    cases hws : isWS a with
    | true =>
      cases b with
      | true =>
        simpa [collapseAux, hws] using ih true
      | false =>
        simp only [collapseAux, hws]
        simp only [if_true, Bool.false_eq_true, if_false]
        apply noAdjWS_cons
        · intro c hc
          have := head_collapseAux_true rest c hc
          simp [this]
        · exact ih true
    | false =>
      simp only [collapseAux, hws]
      simp only [Bool.false_eq_true, if_false]
      apply noAdjWS_cons
      · intro c _; simp [hws]
      · exact ih false

theorem wsCanonical_collapseAux (l : List Char) :
    ∀ b : Bool, wsCanonical (collapseAux b l) = true := by
  induction l with
  | nil => intro b; rfl
  | cons a rest ih =>
    intro b
    cases hws : isWS a with
    | true =>
      cases b with
      | true => simpa [collapseAux, hws] using ih true
      | false =>
        have := ih true
        simp only [collapseAux, hws]
        simp only [if_true, Bool.false_eq_true, if_false]
        simp [wsCanonical] at this ⊢
        exact this
    | false =>
      have := ih false
      simp only [collapseAux, hws]
      simp only [Bool.false_eq_true, if_false]
      simp [wsCanonical, hws] at this ⊢
      exact this

theorem collapseAux_eq_self (l : List Char) :
    noAdjWS l = true → wsCanonical l = true →
    ∀ b : Bool, (b = true → ∀ c, l.head? = some c → isWS c = false) →
    collapseAux b l = l := by
  induction l with
  | nil => intro _ _ b _; rfl
  | cons a rest ih =>
    intro hadj hcan b hb
    cases hws : isWS a with
    | true =>
      cases b with
      | true =>
        have := hb rfl a rfl
        rw [this] at hws; exact absurd hws (by simp)
      | false =>
        have ha : a = ' ' := by
          simp [wsCanonical, hws] at hcan
          exact hcan.1
        have hrest : collapseAux true rest = rest := by
          apply ih (noAdjWS_tail hadj)
          · simp [wsCanonical] at hcan ⊢
            intro x hx
            exact hcan.2 x hx
          · intro _ c hc
            have := noAdjWS_head hadj hc
            rw [hws] at this
            simpa using this
        have hstep : collapseAux false (a :: rest) = ' ' :: collapseAux true rest := by
          simp [collapseAux, hws]
        rw [hstep, hrest, ha]
    | false =>
      have hrest : collapseAux false rest = rest := by
        apply ih (noAdjWS_tail hadj)
        · simp [wsCanonical] at hcan ⊢
          intro x hx
          exact hcan.2 x hx
        · intro h; exact absurd h (by simp)
      have hstep : collapseAux b (a :: rest) = a :: collapseAux false rest := by
        simp [collapseAux, hws]
      rw [hstep, hrest]

theorem getLast?_collapseAux (l : List Char) :
    ∀ (b : Bool) (d : Char), l.getLast? = some d → isWS d = false →
    (collapseAux b l).getLast? = l.getLast? := by
  induction l with
  | nil => intro b d h _; simp at h
  | cons a rest ih =>
    intro b d h hd
    cases rest with
    | nil =>
      simp at h
      subst h
      simp [collapseAux, hd]
    | cons r t =>
      have hlast : (a :: r :: t).getLast? = (r :: t).getLast? := by
        simp [List.getLast?_cons_cons]
      have hrl : (r :: t).getLast? = some d := by rw [← hlast]; exact h
      have ihr : ∀ b : Bool, (collapseAux b (r :: t)).getLast? = (r :: t).getLast? :=
        fun b => ih b d hrl hd
      have hne : ∀ b : Bool, collapseAux b (r :: t) ≠ [] := by
        intro b hb
        have := ihr b
        rw [hb, hrl] at this
        simp at this
      cases hws : isWS a with
      | true =>
        cases b with
        | true =>
          have hstep : collapseAux true (a :: r :: t) = collapseAux true (r :: t) := by
            rw [collapseAux, hws]; rfl
          rw [hstep, ihr true, hlast]
        | false =>
          have hstep : collapseAux false (a :: r :: t) = ' ' :: collapseAux true (r :: t) := by
            rw [collapseAux, hws]; rfl
          rw [hstep]
          rcases hx : collapseAux true (r :: t) with _ | ⟨x, xs⟩
          · exact absurd hx (hne true)
          · have h2 : (' ' :: x :: xs).getLast? = (x :: xs).getLast? := by
              rw [List.getLast?_cons_cons]
            rw [h2, ← hx, ihr true, hlast]
      | false =>
        have hstep : collapseAux b (a :: r :: t) = a :: collapseAux false (r :: t) := by
          rw [collapseAux, hws]
          cases b <;> rfl
        rw [hstep]
        rcases hx : collapseAux false (r :: t) with _ | ⟨x, xs⟩
        · exact absurd hx (hne false)
        · have h2 : (a :: x :: xs).getLast? = (x :: xs).getLast? := by
            rw [List.getLast?_cons_cons]
          rw [h2, ← hx, ihr false, hlast]

theorem rstrip_getLast? (l : List Char) :
    ∀ c, (rstrip l).getLast? = some c → isWS c = false := by
  induction l with
  | nil => intro c h; simp [rstrip] at h
  | cons a rest ih =>
    intro c h
    rw [rstrip] at h
    rcases hr : rstrip rest with _ | ⟨x, xs⟩
    · rw [hr] at h
      cases hws : isWS a with
      | true => rw [hws] at h; simp at h
      | false =>
        rw [hws] at h
        simp at h
        rw [← h]; exact hws
    · rw [hr] at h
      simp only at h
      rw [List.getLast?_cons_cons] at h
      exact ih c (by rw [hr]; exact h)

theorem rstrip_eq_self (l : List Char) :
    (∀ c, l.getLast? = some c → isWS c = false) → rstrip l = l := by
  induction l with
  | nil => intro _; rfl
  | cons a rest ih =>
    intro h
    rw [rstrip]
    cases rest with
    | nil =>
      have := h a (by simp)
      simp [rstrip, this]
    | cons r t =>
      have hrest : rstrip (r :: t) = r :: t := by
        apply ih
        intro c hc
        apply h
        rw [List.getLast?_cons_cons]
        exact hc
      rw [hrest]

theorem rstrip_head? (l : List Char) :
    ∀ c, (rstrip l).head? = some c → l.head? = some c := by
  induction l with
  | nil => intro c h; simp [rstrip] at h
  | cons a rest _ =>
    intro c h
    rw [rstrip] at h
    rcases hr : rstrip rest with _ | ⟨x, xs⟩
    · rw [hr] at h
      cases hws : isWS a with
      | true => rw [hws] at h; simp at h
      | false =>
        rw [hws] at h
        simp at h
        simp [h]
    · rw [hr] at h
      simp only [List.head?_cons, Option.some.injEq] at h
      simp [h]

theorem head?_dropWhile (l : List Char) :
    ∀ c, (l.dropWhile isWS).head? = some c → isWS c = false := by
  induction l with
  | nil => intro c h; simp at h
  | cons a rest ih =>
    intro c h
    rw [List.dropWhile_cons] at h
    cases hws : isWS a with
    | true => rw [hws] at h; simp at h; exact ih c h
    | false =>
      rw [hws] at h
      simp at h
      rw [← h]; exact hws

theorem pstrip_head? (l : List Char) :
    ∀ c, (pstrip l).head? = some c → isWS c = false :=
  fun c h => head?_dropWhile l c (rstrip_head? _ c h)

theorem pstrip_getLast? (l : List Char) :
    ∀ c, (pstrip l).getLast? = some c → isWS c = false :=
  fun c h => rstrip_getLast? _ c h

theorem dropWhile_eq_self (l : List Char)
    (h : ∀ c, l.head? = some c → isWS c = false) : l.dropWhile isWS = l := by
  cases l with
  | nil => rfl
  | cons a rest =>
    have := h a rfl
    simp [List.dropWhile_cons, this]

theorem clean_head? (l : List Char) :
    ∀ c, (clean l).head? = some c → isWS c = false := by
  intro c h
  rw [clean, collapseWS] at h
  rcases hp : pstrip l with _ | ⟨a, rest⟩
  · rw [hp] at h; simp [collapseAux] at h
  · have ha : isWS a = false := pstrip_head? l a (by rw [hp]; rfl)
    rw [hp] at h
    simp [collapseAux, ha] at h
    exact h ▸ ha

theorem clean_getLast? (l : List Char) :
    ∀ c, (clean l).getLast? = some c → isWS c = false := by
  intro c h
  rw [clean, collapseWS] at h
  rcases hp : pstrip l with _ | ⟨a, rest⟩
  · rw [hp] at h; simp [collapseAux] at h
  · rcases hgl : (a :: rest).getLast? with _ | d
    · simp at hgl
    · have hd : isWS d = false := pstrip_getLast? l d (by rw [hp]; exact hgl)
      rw [hp, getLast?_collapseAux (a :: rest) false d hgl hd, hgl] at h
      cases h
      exact hd

theorem clean_noAdjWS (l : List Char) : noAdjWS (clean l) = true :=
  noAdjWS_collapseAux (pstrip l) false

theorem clean_wsCanonical (l : List Char) : wsCanonical (clean l) = true :=
  wsCanonical_collapseAux (pstrip l) false

theorem clean_noEdgeWS (l : List Char) : noEdgeWS (clean l) = true := by
  rw [noEdgeWS, Bool.and_eq_true_iff]
  constructor
  · rcases hh : (clean l).head? with _ | c
    · rfl
    · simp [clean_head? l c hh]
  · rcases hh : (clean l).getLast? with _ | c
    · rfl
    · simp [clean_getLast? l c hh]

theorem clean_idem (l : List Char) : clean (clean l) = clean l := by
  have hstrip : pstrip (clean l) = clean l := by
    rw [pstrip, dropWhile_eq_self _ (clean_head? l)]
    exact rstrip_eq_self _ (clean_getLast? l)
  rw [clean, hstrip, collapseWS]
  exact collapseAux_eq_self _ (clean_noAdjWS l) (clean_wsCanonical l) false
    (fun h => absurd h (by simp))

/-- C1: for every input string `s`, `clean s` contains no two adjacent
whitespace characters, has no leading or trailing whitespace, and `clean`
is idempotent: `clean (clean s) = clean s`. -/
theorem C1_clean_normalizer (s : List Char) :
    noAdjWS (clean s) = true ∧ noEdgeWS (clean s) = true ∧
    clean (clean s) = clean s :=
  ⟨clean_noAdjWS s, clean_noEdgeWS s, clean_idem s⟩

theorem noEdgeWS_pstrip (l : List Char) : noEdgeWS (pstrip l) = true := by
  rw [noEdgeWS, Bool.and_eq_true_iff]
  constructor
  · rcases hh : (pstrip l).head? with _ | c
    · rfl
    · simp [pstrip_head? l c hh]
  · rcases hh : (pstrip l).getLast? with _ | c
    · rfl
    · simp [pstrip_getLast? l c hh]

theorem pubmed_title_ok_clean (env : PubmedEnv) (soup : XmlForest) (ti : List Char)
    (h : pubmed_title env soup = Except.ok ti) : ∃ s, ti = clean s := by
  rw [pubmed_title] at h
  split at h
  · rename_i t _
    simp at h
    exact ⟨Xml.allText t, by simp [h]⟩
  · split at h
    · simp at h
    · split at h
      · simp at h
      · rename_i es hes s hs
        split at h
        · simp at h
        · simp at h
          exact ⟨s, by simp [h]⟩

theorem get_pubmed_full_fields (env : PubmedEnv) (pmid : List Char) (rec : Paper)
    (hrec : get_pubmed_full env pmid = Except.ok rec) :
    ∃ soup,
      pubmed_meta_xml env.efetch = Except.ok soup ∧
      pubmed_title env soup = Except.ok rec.title ∧
      rec.authors = pubmedAuthors soup ∧
      rec.published = pubmedPublished soup ∧
      rec.abstract = pubmedAbstract soup ∧
      pubmed_fulltext env = Except.ok rec.full_text ∧
      rec.url = pubmedUrl pmid := by
  rw [get_pubmed_full] at hrec
  split at hrec
  · simp at hrec
  · rename_i title authors published abstract hp
    split at hrec
    · simp at hrec
    · rename_i ft hf
      simp at hrec
      subst hrec
      rw [pubmed_primary] at hp
      split at hp
      · simp at hp
      · rename_i soup hm
        split at hp
        · simp at hp
        · rename_i ti ht
          injection hp with hp0
          injection hp0 with h1 hp1
          injection hp1 with h2 hp2
          injection hp2 with h3 h4
          refine ⟨soup, hm, ?_, ?_, ?_, ?_, ?_, rfl⟩
          · show pubmed_title env soup = Except.ok title
            rw [ht, h1]
          · show authors = pubmedAuthors soup
            exact h2.symm
          · show published = pubmedPublished soup
            exact h3.symm
          · show abstract = pubmedAbstract soup
            exact h4.symm
          · show pubmed_fulltext env = Except.ok ft
            exact hf

theorem get_arxiv_full_fields (flag : Bool) (env : ArxivEnv) (arxivId : List Char)
    (rec : Paper) (hrec : get_arxiv_full flag env arxivId = Except.ok rec) :
    ∃ resp ent rest,
      env.query = Except.ok resp ∧ resp.entries = ent :: rest ∧
      rec.title = clean ent.title ∧ rec.authors = ent.authors ∧
      rec.published = ent.published ∧ rec.abstract = clean ent.summary ∧
      arxiv_pdf_text flag env = Except.ok rec.full_text ∧
      rec.url = arxivUrl arxivId := by
  rw [get_arxiv_full] at hrec
  split at hrec
  · simp at hrec
  · rename_i meta hm
    split at hrec
    · simp at hrec
    · rename_i ft hf
      simp at hrec
      subst hrec
      rw [get_arxiv_meta] at hm
      split at hm
      · simp at hm
      · rename_i resp hq
        split at hm
        · simp at hm
        · rename_i ent rest he
          injection hm with hm0
          subst hm0
          exact ⟨resp, ent, rest, hq, he, rfl, rfl, rfl, rfl, by rw [hf], rfl⟩


/-- C5: for every PubMed XML payload containing zero AbstractText elements,
the abstract field of the returned Paper record equals exactly the literal
string "(No abstract available.)". -/
theorem C5_placeholder_abstract (env : PubmedEnv) (pmid : List Char)
    (resp : HttpResp) (rec : Paper)
    (hef : env.efetch = Except.ok resp)
    (habs : findAllL "AbstractText" resp.xml = [])
    (hrec : get_pubmed_full env pmid = Except.ok rec) :
    rec.abstract = placeholder := by
  obtain ⟨soup, hm, _, _, _, hab, _, _⟩ := get_pubmed_full_fields env pmid rec hrec
  rw [hef] at hm
  simp [pubmed_meta_xml] at hm
  subst hm
  rw [hab, pubmedAbstract, habs]
  rfl

/-- C5 witness: the theorem applied to a concrete document with a title and
no AbstractText element. -/
theorem C5_witness : recC5.abstract = placeholder :=
  C5_placeholder_abstract envC5 "11".toList ⟨200, soupC5⟩ recC5 rfl rfl rfl

/-- C6 counterexample: a payload with one AbstractText element whose text is
empty yields the placeholder literal as abstract, contradicting the claim
that with at least one AbstractText element the abstract never equals the
placeholder. -/
theorem C6_counterexample :
    (findAllL "AbstractText" soupC6).length = 1 ∧
    get_pubmed_full envC6 "12".toList =
      Except.ok { title := "T".toList, authors := [], published := [],
                  abstract := placeholder, full_text := [],
                  url := pubmedUrl "12".toList } :=
  ⟨rfl, rfl⟩

/-- C6 amended: for every payload the abstract field of a returned record is
non-empty: it equals the cleaned space-joined AbstractText concatenation
when that concatenation is non-empty, and the (non-empty) placeholder
literal otherwise — so at least one AbstractText element guarantees a
non-empty abstract, but whitespace-only AbstractText elements still produce
the placeholder. -/
theorem C6_abstract_nonempty (env : PubmedEnv) (pmid : List Char)
    (resp : HttpResp) (rec : Paper)
    (hef : env.efetch = Except.ok resp)
    (hrec : get_pubmed_full env pmid = Except.ok rec) :
    rec.abstract ≠ [] ∧
    (clean (joinSep [' '] ((findAllL "AbstractText" resp.xml).map Xml.allText)) ≠ [] →
      rec.abstract =
        clean (joinSep [' '] ((findAllL "AbstractText" resp.xml).map Xml.allText))) := by
  obtain ⟨soup, hm, _, _, _, hab, _, _⟩ := get_pubmed_full_fields env pmid rec hrec
  rw [hef] at hm
  simp [pubmed_meta_xml] at hm
  subst hm
  rw [hab]
  by_cases h0 : (clean (joinSep [' ']
      ((findAllL "AbstractText" resp.xml).map Xml.allText))).isEmpty = true
  · constructor
    · simp [pubmedAbstract, h0]
      decide
    · intro hne
      exact absurd (List.isEmpty_iff.mp h0) hne
  · constructor
    · simp [pubmedAbstract, h0]
      intro hcontr
      rw [hcontr] at h0
      exact h0 rfl
    · intro _
      simp [pubmedAbstract, h0]

/-- C6 witness: the amended theorem applied to a document with one non-blank
AbstractText element. -/
theorem C6_witness :
    recC6w.abstract ≠ [] ∧
    recC6w.abstract =
      clean (joinSep [' '] ((findAllL "AbstractText" soupC6w).map Xml.allText)) := by
  have h := C6_abstract_nonempty envC6w "60".toList ⟨200, soupC6w⟩ recC6w rfl rfl
  exact ⟨h.1, h.2 (by decide)⟩

/-- C7 counterexample: with Year and Day present but Month absent the
published field is "2021  5", which contains two adjacent spaces — the
claim that joining only the present sub-elements leaves no adjacent spaces
is false. -/
theorem C7_counterexample :
    get_pubmed_full envC7 "13".toList =
      Except.ok { title := "T".toList, authors := [],
                  published := "2021  5".toList,
                  abstract := placeholder, full_text := [],
                  url := pubmedUrl "13".toList } ∧
    noAdjWS "2021  5".toList = false :=
  ⟨rfl, by decide⟩

/-- C7 amended: published is the Python-strip of year+" "+month+" "+day,
where each component is the text of the Year/Month/Day descendant of the
PubDate (else BookDate) element and an absent component contributes the
empty string; it is "" when no date element is found and never has leading
or trailing whitespace, but an absent component between present ones leaves
adjacent interior spaces. -/
theorem C7_published_shape (env : PubmedEnv) (pmid : List Char)
    (resp : HttpResp) (rec : Paper)
    (hef : env.efetch = Except.ok resp)
    (hrec : get_pubmed_full env pmid = Except.ok rec) :
    rec.published = pstrip (joinSep [' ']
      [subElemText (pubmedDateTag resp.xml) "Year",
       subElemText (pubmedDateTag resp.xml) "Month",
       subElemText (pubmedDateTag resp.xml) "Day"]) ∧
    noEdgeWS rec.published = true ∧
    (pubmedDateTag resp.xml = none → rec.published = []) := by
  obtain ⟨soup, hm, _, _, hpub, _, _, _⟩ := get_pubmed_full_fields env pmid rec hrec
  rw [hef] at hm
  simp [pubmed_meta_xml] at hm
  subst hm
  refine ⟨hpub, ?_, ?_⟩
  · rw [hpub, pubmedPublished]
    exact noEdgeWS_pstrip _
  · intro hnone
    rw [hpub, pubmedPublished, hnone]
    rfl

/-- C7 witness: the amended theorem applied to a document whose PubDate has
only a Year. -/
theorem C7_witness :
    recC7w.published = pstrip (joinSep [' ']
      [subElemText (pubmedDateTag soupC7w) "Year",
       subElemText (pubmedDateTag soupC7w) "Month",
       subElemText (pubmedDateTag soupC7w) "Day"]) ∧
    noEdgeWS recC7w.published = true := by
  have h := C7_published_shape envC7w "70".toList ⟨200, soupC7w⟩ recC7w rfl rfl
  exact ⟨h.1, h.2.1⟩

/-- C10 counterexample: with NCBI_KEY unset the hard-coded default key is
non-empty, so no delay is performed — the claim that an unset key causes the
400ms wait is false. -/
theorem C10_counterexample :
    paper_pubmed_delay none = 0 ∧ defaultApiKey ≠ [] :=
  ⟨rfl, by decide⟩

/-- C10 amended: the 400ms delay is performed exactly when the effective API
key is the empty string, i.e. when NCBI_KEY is set to ""; when NCBI_KEY is
unset the hard-coded default key takes effect and no delay is performed. -/
theorem C10_delay_condition (k : Option (List Char)) :
    paper_pubmed_delay k = if k = some [] then 400 else 0 := by
  rcases k with _ | (_ | ⟨c, cs⟩)
  · decide
  · decide
  · simp [paper_pubmed_delay, entrezApiKey]


/-- C2 counterexample: two environments that differ only in the secondary
elink call; with the call succeeding the request succeeds with empty full
text, with the call raising the whole request fails — a failure of the
secondary path is not degraded and does affect the response. -/
theorem C2_counterexample :
    get_pubmed_full envC2ok "10".toList =
      Except.ok { title := "A Study".toList, authors := [], published := [],
                  abstract := placeholder, full_text := [],
                  url := pubmedUrl "10".toList } ∧
    get_pubmed_full envC2err "10".toList =
      Except.error (Err.exn "ConnectionError") :=
  ⟨rfl, rfl⟩

/-- C2 amended: absence in the secondary path (a well-formed elink response
with no PMC link) degrades to empty full text, and whenever the secondary
path does not raise, the response status is decided by the primary path
alone and a returned record carries the secondary result as full_text; but
an exception raised by the elink call (or a malformed elink response, or a
raising PMC efetch) propagates and fails the whole request. -/
theorem C2_secondary_degrades (env : PubmedEnv) (pmid : List Char) :
    (pmid_to_pmcid env.elink = Except.ok none → pubmed_fulltext env = Except.ok []) ∧
    (∀ ft, pubmed_fulltext env = Except.ok ft →
       ((∃ rec, get_pubmed_full env pmid = Except.ok rec) ↔
        (∃ x, pubmed_primary env = Except.ok x)) ∧
       (∀ rec, get_pubmed_full env pmid = Except.ok rec → rec.full_text = ft)) ∧
    (∀ e, pmid_to_pmcid env.elink = Except.error e →
       pubmed_fulltext env = Except.error (Err.exn e) ∧
       ∀ rec, get_pubmed_full env pmid ≠ Except.ok rec) := by
  refine ⟨?_, ?_, ?_⟩
  · intro h
    rw [pubmed_fulltext, h]
  · intro ft hft
    constructor
    · rcases hp : pubmed_primary env with e | ⟨t, a, pub, ab⟩
      · have hget : get_pubmed_full env pmid = Except.error e := by
          rw [get_pubmed_full, hp]
        constructor
        · rintro ⟨rec, hrec⟩
          rw [hget] at hrec
          simp at hrec
        · rintro ⟨x, hx⟩
          simp at hx
      · have hget : get_pubmed_full env pmid =
            Except.ok { title := t, authors := a, published := pub,
                        abstract := ab, full_text := ft,
                        url := pubmedUrl pmid } := by
          simp only [get_pubmed_full, hp, hft]
        constructor
        · intro _
          exact ⟨(t, a, pub, ab), rfl⟩
        · intro _
          exact ⟨_, hget⟩
    · intro rec hrec
      obtain ⟨soup, _, _, _, _, _, hft2, _⟩ := get_pubmed_full_fields env pmid rec hrec
      rw [hft] at hft2
      injection hft2 with h
      exact h.symm
  · intro e he
    have hful : pubmed_fulltext env = Except.error (Err.exn e) := by
      rw [pubmed_fulltext, he]
    refine ⟨hful, ?_⟩
    intro rec hrec
    obtain ⟨soup, _, _, _, _, _, hft2, _⟩ := get_pubmed_full_fields env pmid rec hrec
    rw [hful] at hft2
    simp at hft2

/-- C2 witness: the amended theorem applied to a concrete environment with a
well-formed linkless elink response. -/
theorem C2_witness :
    pubmed_fulltext envC2ok = Except.ok [] ∧
    (∀ rec, get_pubmed_full envC2ok "10".toList = Except.ok rec →
      rec.full_text = []) := by
  have h := C2_secondary_degrades envC2ok "10".toList
  have h1 := h.1 rfl
  exact ⟨h1, fun rec hrec => (h.2.1 [] h1).2 rec hrec⟩

/-- C3 counterexample: an upstream 500 response whose body parses to an
empty feed is not propagated as a server-side error — the arXiv adapter
raises NotFound (404) instead. -/
theorem C3_counterexample :
    envC3.query = Except.ok ⟨500, []⟩ ∧
    get_arxiv_meta envC3 = Except.error (Err.httpError 404 "arXiv ID not found") :=
  ⟨rfl, rfl⟩

/-- C3 amended: a network failure (raised exception) does propagate to the
caller as a distinguishable error, but a non-2xx status does not: neither
fetcher ever inspects the response status, so the result depends only on
the parsed body and a non-2xx error page can silently become NotFound. -/
theorem C3_status_ignored (penv : PubmedEnv) (aenv : ArxivEnv) (pmid : List Char) :
    (∀ e, penv.efetch = Except.error e →
        get_pubmed_full penv pmid = Except.error (Err.exn e)) ∧
    (∀ e, aenv.query = Except.error e →
        get_arxiv_meta aenv = Except.error (Err.exn e)) ∧
    (∀ s s' xml, penv.efetch = Except.ok ⟨s, xml⟩ →
        get_pubmed_full { penv with efetch := Except.ok ⟨s', xml⟩ } pmid =
          get_pubmed_full penv pmid) ∧
    (∀ s s' entries, aenv.query = Except.ok ⟨s, entries⟩ →
        get_arxiv_meta { aenv with query := Except.ok ⟨s', entries⟩ } =
          get_arxiv_meta aenv) := by
  refine ⟨?_, ?_, ?_, ?_⟩
  · intro e he
    simp only [get_pubmed_full, pubmed_primary, pubmed_meta_xml, he]
  · intro e he
    simp only [get_arxiv_meta, he]
  · intro s s' xml hef
    have hm1 : pubmed_meta_xml ({ penv with efetch := Except.ok ⟨s', xml⟩ } :
        PubmedEnv).efetch = Except.ok xml := rfl
    have hm2 : pubmed_meta_xml penv.efetch = Except.ok xml := by
      rw [hef]
      rfl
    have htitle : ∀ soup, pubmed_title ({ penv with efetch := Except.ok ⟨s', xml⟩ } :
        PubmedEnv) soup = pubmed_title penv soup := fun _ => rfl
    have hprim : pubmed_primary ({ penv with efetch := Except.ok ⟨s', xml⟩ } :
        PubmedEnv) = pubmed_primary penv := by
      rw [pubmed_primary, pubmed_primary, hm1, hm2]
      rfl
    have hful : pubmed_fulltext ({ penv with efetch := Except.ok ⟨s', xml⟩ } :
        PubmedEnv) = pubmed_fulltext penv := rfl
    rw [get_pubmed_full, get_pubmed_full, hprim, hful]
  · intro s s' entries hq
    have hq' : ({ aenv with query := Except.ok ⟨s', entries⟩ } :
        ArxivEnv).query = Except.ok ⟨s', entries⟩ := rfl
    rw [get_arxiv_meta, get_arxiv_meta, hq, hq']

/-- C3 witness: the amended theorem applied to concrete environments whose
metadata calls raise. -/
theorem C3_witness :
    get_pubmed_full envC3pw "30".toList = Except.error (Err.exn "Timeout") ∧
    get_arxiv_meta envC3aw = Except.error (Err.exn "Timeout") := by
  have h := C3_status_ignored envC3pw envC3aw "30".toList
  exact ⟨h.1 "Timeout" rfl, h.2.1 "Timeout" rfl⟩

/-- C4 counterexample: a document containing a Title element before an
ArticleTitle element yields the Title text — `find` with a list of names
returns the first match in document order, not ArticleTitle first. -/
theorem C4_counterexample :
    get_pubmed_full envC4 "40".toList =
      Except.ok { title := "Wrong".toList, authors := [], published := [],
                  abstract := placeholder, full_text := [],
                  url := pubmedUrl "40".toList } ∧
    ("Wrong".toList : List Char) ≠ "Right".toList :=
  ⟨rfl, by decide⟩

/-- C4 amended: the title is the normalized text of the first element in
document order whose tag is any of ArticleTitle, article-title, BookTitle,
Title, with no priority among the four names; when no such element exists
the Title of the first esummary record is used (a missing record or
empty-string Title counts as absent); when still absent the request fails
with HTTPException 404 and no record is returned. -/
theorem C4_title_logic (env : PubmedEnv) (resp : HttpResp) (pmid : List Char)
    (hef : env.efetch = Except.ok resp) :
    (∀ rec, get_pubmed_full env pmid = Except.ok rec →
        pubmed_title env resp.xml = Except.ok rec.title) ∧
    (∀ t, findL titleNames resp.xml = some t →
        pubmed_title env resp.xml = Except.ok (clean (Xml.allText t))) ∧
    (∀ es, findL titleNames resp.xml = none → env.esummary = Except.ok es →
        (((esFirstTitle es = none ∨ esFirstTitle es = some []) →
           get_pubmed_full env pmid =
             Except.error (Err.httpError 404 "PMID not found")) ∧
         (∀ s, esFirstTitle es = some s → s ≠ [] →
           pubmed_title env resp.xml = Except.ok (clean s)))) := by
  refine ⟨?_, ?_, ?_⟩
  · intro rec hrec
    obtain ⟨soup, hm, ht, _, _, _, _, _⟩ := get_pubmed_full_fields env pmid rec hrec
    rw [hef] at hm
    simp [pubmed_meta_xml] at hm
    subst hm
    exact ht
  · intro t hfind
    rw [pubmed_title, hfind]
  · intro es hnone hes
    constructor
    · intro h0
      have ht : pubmed_title env resp.xml =
          Except.error (Err.httpError 404 "PMID not found") := by
        rcases h0 with h0 | h0 <;> simp [pubmed_title, hnone, hes, h0]
      have hmx : pubmed_meta_xml env.efetch = Except.ok resp.xml := by
        rw [hef]
        rfl
      have hp : pubmed_primary env =
          Except.error (Err.httpError 404 "PMID not found") := by
        simp only [pubmed_primary, hmx, ht]
      rw [get_pubmed_full, hp]
    · intro s hs hsne
      have hempty : s.isEmpty = false := by
        cases s with
        | nil => exact absurd rfl hsne
        | cons c cs => rfl
      simp [pubmed_title, hnone, hes, hs, hempty]

/-- C4 witness: the amended theorem applied to a document whose only
title-like element is a BookTitle, and to a titleless document with an
empty esummary. -/
theorem C4_witness :
    pubmed_title envC4w soupC4w = Except.ok (clean "B".toList) ∧
    get_pubmed_full envC4x "42".toList =
      Except.error (Err.httpError 404 "PMID not found") := by
  have h1 := C4_title_logic envC4w ⟨200, soupC4w⟩ "41".toList rfl
  have h2 := C4_title_logic envC4x ⟨200, XmlForest.nil⟩ "42".toList rfl
  exact ⟨h1.2.1 (xelem "BookTitle" [Xml.text "B".toList]) rfl,
    (h2.2.2 [] rfl rfl).1 (Or.inl rfl)⟩


theorem dropWhile_isWS_replicate_space (n : Nat) :
    (List.replicate n ' ').dropWhile isWS = [] := by
  induction n with
  | zero => rfl
  | succ m ih =>
    rw [List.replicate_succ, List.dropWhile_cons]
    simp [isWS, ih]

theorem clean_replicate_space (n : Nat) :
    clean (List.replicate n ' ') = [] := by
  rw [clean, pstrip, dropWhile_isWS_replicate_space]
  rfl

theorem getLast?_replicate_succ (n : Nat) (c : Char) :
    (List.replicate (n + 1) c).getLast? = some c := by
  induction n with
  | zero => rfl
  | succ m ih =>
    rw [List.replicate_succ, List.replicate_succ, List.getLast?_cons_cons,
      ← List.replicate_succ]
    exact ih

theorem noAdjWS_replicate (n : Nat) (c : Char) (hc : isWS c = false) :
    noAdjWS (List.replicate n c) = true := by
  induction n with
  | zero => rfl
  | succ m ih =>
    cases m with
    | zero => rfl
    | succ k =>
      rw [List.replicate_succ, List.replicate_succ, noAdjWS, ← List.replicate_succ]
      simp [hc, ih]

theorem clean_replicate_nonWS (n : Nat) (c : Char) (hc : isWS c = false) :
    clean (List.replicate n c) = List.replicate n c := by
  cases n with
  | zero => rfl
  | succ m =>
    have hhead : ∀ d, (List.replicate (m + 1) c).head? = some d → isWS d = false := by
      intro d hd
      rw [List.replicate_succ] at hd
      simp at hd
      exact hd ▸ hc
    have hlast : ∀ d, (List.replicate (m + 1) c).getLast? = some d → isWS d = false := by
      intro d hd
      rw [getLast?_replicate_succ] at hd
      injection hd with h
      exact h ▸ hc
    have hcan : wsCanonical (List.replicate (m + 1) c) = true := by
      rw [wsCanonical, List.all_eq_true]
      intro x hx
      have := List.eq_of_mem_replicate hx
      subst this
      simp [hc]
    rw [clean, pstrip, dropWhile_eq_self _ hhead, rstrip_eq_self _ hlast, collapseWS]
    exact collapseAux_eq_self _ (noAdjWS_replicate _ c hc) hcan false
      (fun h => absurd h (by simp))

theorem arxiv_pdf_text_200 (env : ArxivEnv) (s : Nat) (txt : List Char)
    (hp : env.pdf = Except.ok ⟨s, txt⟩) (hs : s = 200) :
    arxiv_pdf_text true env = Except.ok ((clean txt).take 100000) := by
  subst hs
  simp [arxiv_pdf_text, hp]

/-- C8 counterexample: an extracted PDF text of 100001 characters, all of
them spaces, normalizes to "" and yields a result of length 0 rather than
100000 — the truncation guarantee cannot be stated over the extracted text
because normalization happens before truncation. -/
theorem C8_counterexample :
    100000 < (List.replicate 100001 ' ').length ∧
    arxiv_pdf_text true envC8 = Except.ok [] ∧
    (0 : Nat) ≠ 100000 := by
  refine ⟨?_, ?_, by decide⟩
  · rw [List.length_replicate]
    omega
  · have h : clean (List.replicate 100001 ' ') = [] := clean_replicate_space 100001
    rw [arxiv_pdf_text_200 envC8 200 (List.replicate 100001 ' ') rfl rfl, h]
    rfl

/-- C8 amended: arxiv_pdf_text returns "" whenever the PDF flag is disabled
or the download status is not 200; on success it returns the
whitespace-normalized extracted text truncated to at most 100000
characters, and any NORMALIZED text of length at least 100000 yields a
result of exactly 100000 characters (normalization can shrink a longer raw
text below the cap); consequently get_arxiv_full with the flag disabled
always yields an empty full_text. -/
theorem C8_pdf_truncation (env : ArxivEnv) (arxivId : List Char) :
    arxiv_pdf_text false env = Except.ok [] ∧
    (∀ resp, env.pdf = Except.ok resp → resp.status ≠ 200 →
        arxiv_pdf_text true env = Except.ok []) ∧
    (∀ resp, env.pdf = Except.ok resp → resp.status = 200 →
        arxiv_pdf_text true env =
          Except.ok ((clean resp.extracted).take 100000) ∧
        (100000 ≤ (clean resp.extracted).length →
          ((clean resp.extracted).take 100000).length = 100000)) ∧
    (∀ rec, get_arxiv_full false env arxivId = Except.ok rec →
        rec.full_text = []) := by
  refine ⟨rfl, ?_, ?_, ?_⟩
  · intro resp hp hs
    simp [arxiv_pdf_text, hp, hs]
  · intro resp hp hs
    refine ⟨by simp [arxiv_pdf_text, hp, hs], ?_⟩
    intro hlen
    rw [List.length_take]
    omega
  · intro rec hrec
    obtain ⟨_, _, _, _, _, _, _, _, _, hft, _⟩ :=
      get_arxiv_full_fields false env arxivId rec hrec
    have h0 : Except.ok ([] : List Char) = Except.ok rec.full_text := hft
    injection h0 with h
    exact h.symm

/-- C8 witness: the amended theorem applied to a 200-status download whose
normalized text has length exactly 100000. -/
theorem C8_witness :
    arxiv_pdf_text true envC8w =
      Except.ok ((clean (List.replicate 100000 'a')).take 100000) ∧
    ((clean (List.replicate 100000 'a')).take 100000).length = 100000 := by
  have h := (C8_pdf_truncation envC8w "80".toList).2.2.1
    ⟨200, List.replicate 100000 'a'⟩ rfl rfl
  refine ⟨h.1, h.2 ?_⟩
  rw [clean_replicate_nonWS 100000 'a' (by decide), List.length_replicate]

/-- C9 counterexample: an arXiv author name with two adjacent spaces
reaches the response unmodified, so not every response field passes
through the text normalizer. -/
theorem C9_counterexample :
    get_arxiv_full false envC9 "1234.5678".toList =
      Except.ok { title := "T".toList, authors := ["A  B".toList],
                  published := "2020-01-01T00:00:00Z".toList,
                  abstract := "S".toList, full_text := [],
                  url := arxivUrl "1234.5678".toList } ∧
    noAdjWS "A  B".toList = false :=
  ⟨rfl, by decide⟩

/-- C9 amended: the title and abstract of every returned record (both
adapters) and every author of a PubMed record are whitespace-normalized —
no two adjacent whitespace characters and no leading or trailing
whitespace; however arXiv author names and published timestamps, the
PubMed published field and the PMC full text are not passed through the
normalizer. -/
theorem C9_normalized_fields (penv : PubmedEnv) (aenv : ArxivEnv)
    (pmid arxivId : List Char) (flag : Bool) :
    (∀ rec, get_pubmed_full penv pmid = Except.ok rec →
        (noAdjWS rec.title = true ∧ noEdgeWS rec.title = true) ∧
        (noAdjWS rec.abstract = true ∧ noEdgeWS rec.abstract = true) ∧
        (∀ a ∈ rec.authors, noAdjWS a = true ∧ noEdgeWS a = true)) ∧
    (∀ rec, get_arxiv_full flag aenv arxivId = Except.ok rec →
        (noAdjWS rec.title = true ∧ noEdgeWS rec.title = true) ∧
        (noAdjWS rec.abstract = true ∧ noEdgeWS rec.abstract = true)) := by
  constructor
  · intro rec hrec
    obtain ⟨soup, hm, ht, hauth, _, hab, _, _⟩ :=
      get_pubmed_full_fields penv pmid rec hrec
    refine ⟨?_, ?_, ?_⟩
    · obtain ⟨s, hs⟩ := pubmed_title_ok_clean penv soup rec.title ht
      rw [hs]
      exact ⟨clean_noAdjWS s, clean_noEdgeWS s⟩
    · rw [hab]
      by_cases h0 : (clean (joinSep [' ']
          ((findAllL "AbstractText" soup).map Xml.allText))).isEmpty = true
      · simp only [pubmedAbstract, h0, if_true]
        exact ⟨by decide, by decide⟩
      · simp only [pubmedAbstract, h0, if_false]
        exact ⟨clean_noAdjWS _, clean_noEdgeWS _⟩
    · intro a ha
      rw [hauth, pubmedAuthors] at ha
      split at ha <;>
        · obtain ⟨x, _, hx⟩ := List.mem_map.mp ha
          rw [← hx]
          exact ⟨clean_noAdjWS _, clean_noEdgeWS _⟩
  · intro rec hrec
    obtain ⟨resp, ent, rest, _, _, hti, _, _, habs, _, _⟩ :=
      get_arxiv_full_fields flag aenv arxivId rec hrec
    rw [hti, habs]
    exact ⟨⟨clean_noAdjWS _, clean_noEdgeWS _⟩, ⟨clean_noAdjWS _, clean_noEdgeWS _⟩⟩

/-- C9 witness: the amended theorem applied to concrete documents with
messy whitespace in the normalized fields. -/
theorem C9_witness :
    noAdjWS recC9pw.title = true ∧ noEdgeWS recC9pw.abstract = true ∧
    (∀ a ∈ recC9pw.authors, noAdjWS a = true ∧ noEdgeWS a = true) ∧
    noAdjWS recC9aw.title = true := by
  have h := C9_normalized_fields envC9pw envC9aw "9".toList "9a".toList false
  have hp := h.1 recC9pw rfl
  have ha := h.2 recC9aw rfl
  exact ⟨hp.1.1, hp.2.1.2, hp.2.2, ha.1.1⟩

end ResearchOracle
